import Mathlib

/-!
Shallow embedding of `src/main.py` (the "Press Your Luck" board program).

Pure Python functions become Lean functions; PIL images are modelled as
size-annotated pixel grids (`Img` for RGB-mode images, `ImgA` for
RGBA-mode images, `GrayImg` for "L"-mode masks).  Pixel blending follows
Pillow's `paste`-with-mask compositing, whose per-channel formula is the
`MULDIV255` macro `tmp = a*b + 128; ((tmp >> 8) + tmp) >> 8`.  Python
floats in `make_rect_gradient` only ever hold small integer-valued or
simple rational quantities; for the reference edge length 200 the float
computation `int(255 * (dist / max_dist))` agrees everywhere with exact
rational arithmetic, so it is embedded as exact `Nat` / `ℚ` arithmetic.
Randomness (`random.choice`, `random.randrange`) is modelled by explicit
draw parameters reduced modulo the relevant pool size.
-/

namespace PressYourLuck

/-! ### Module-level constants of `main.py` -/

def SCREEN_WIDTH : ℕ := 1170
def SCREEN_HEIGHT : ℕ := 2532
def ROWS : ℕ := 5
def COLS : ℕ := 4
def TILE_SIZE : ℕ := 200
def BORDER : ℕ := 2
def UPDATE_INTERVAL : ℕ := 500

/-- The four named background colors, in the source's dict order. -/
def BACKGROUND_COLORS : List (String × (ℕ × ℕ × ℕ)) :=
  [("orange", (255, 165, 0)),
   ("gold", (255, 215, 0)),
   ("blue", (30, 144, 255)),
   ("purple", (138, 43, 226))]

/-! ### Image model -/

/-- An RGB triple (each channel `0..255`). -/
abbrev RGB := ℕ × ℕ × ℕ

/-- An RGBA quadruple (each channel `0..255`); the fourth component is alpha. -/
abbrev RGBA := ℕ × ℕ × ℕ × ℕ

/-- An RGB-mode image: a width/height and a pixel function. -/
structure Img where
  width : ℕ
  height : ℕ
  pix : ℕ → ℕ → RGB

/-- An RGBA-mode image (the decoded source images carry per-pixel alpha). -/
structure ImgA where
  width : ℕ
  height : ℕ
  pix : ℕ → ℕ → RGBA

/-- An "L"-mode (8-bit grayscale) image, used as a paste mask. -/
structure GrayImg where
  width : ℕ
  height : ℕ
  pix : ℕ → ℕ → ℕ

instance : Inhabited Img := ⟨⟨0, 0, fun _ _ => (0, 0, 0)⟩⟩
instance : Inhabited ImgA := ⟨⟨0, 0, fun _ _ => (0, 0, 0, 255)⟩⟩

/-- Pillow's `MULDIV255` macro: `tmp = a*b + 128; ((tmp >> 8) + tmp) >> 8`,
an exact round-to-nearest of `a*b/255` for 8-bit operands. -/
def muldiv255 (a b : ℕ) : ℕ :=
  ((a * b + 128) >>> 8 + (a * b + 128)) >>> 8

/-- Pillow's `BLEND` macro for pasting with a mask value `m`:
`MULDIV255(in1, 255 - m) + MULDIV255(in2, m)`. -/
def blendChannel (m a b : ℕ) : ℕ :=
  muldiv255 a (255 - m) + muldiv255 b m

/-- Blend two RGB pixels with an 8-bit mask value `m` (0 keeps `a`, 255 takes `b`). -/
def blendRGB (m : ℕ) (a b : RGB) : RGB :=
  (blendChannel m a.1 b.1, blendChannel m a.2.1 b.2.1, blendChannel m a.2.2 b.2.2)

/-- Model of `Image.new("RGB", (w, h), c)`. -/
def Img.new (w h : ℕ) (c : RGB) : Img := ⟨w, h, fun _ _ => c⟩

/-- Model of `base.paste(overlay, (ox, oy), mask)` with an "L"-mode mask: inside the
pasted rectangle each channel is blended by the mask value, outside the base
is unchanged.  The base image's dimensions are unchanged (Pillow clips). -/
def Img.pasteMask (base overlay : Img) (mask : GrayImg) (ox oy : ℕ) : Img :=
  ⟨base.width, base.height, fun x y =>
    if ox ≤ x ∧ x < ox + overlay.width ∧ oy ≤ y ∧ y < oy + overlay.height then
      blendRGB (mask.pix (x - ox) (y - oy)) (base.pix x y)
        (overlay.pix (x - ox) (y - oy))
    else base.pix x y⟩

/-- Model of `base.paste(overlay, (ox, oy), overlay)` where `overlay` is RGBA: Pillow
uses the overlay's own alpha band as the mask. -/
def Img.pasteAlpha (base : Img) (overlay : ImgA) (ox oy : ℕ) : Img :=
  ⟨base.width, base.height, fun x y =>
    if ox ≤ x ∧ x < ox + overlay.width ∧ oy ≤ y ∧ y < oy + overlay.height then
      blendRGB (overlay.pix (x - ox) (y - oy)).2.2.2 (base.pix x y)
        ((overlay.pix (x - ox) (y - oy)).1,
         (overlay.pix (x - ox) (y - oy)).2.1,
         (overlay.pix (x - ox) (y - oy)).2.2.1)
    else base.pix x y⟩

/-- Model of `base.paste(overlay, (ox, oy))` with no mask: the overlay's pixels replace
the base's inside the pasted rectangle. -/
def Img.paste (base overlay : Img) (ox oy : ℕ) : Img :=
  ⟨base.width, base.height, fun x y =>
    if ox ≤ x ∧ x < ox + overlay.width ∧ oy ≤ y ∧ y < oy + overlay.height then
      overlay.pix (x - ox) (y - oy)
    else base.pix x y⟩

/-- Model of `img.copy()`: in this functional model a copy is the same value; the heap
model below (`Store`) captures that the copy is a fresh, independently
mutable object. -/
def Img.copy (img : Img) : Img := img

/-! ### `make_rect_gradient` (src/main.py lines 26-45) -/

/-- Chebyshev distance of pixel `(x, y)` from the center `(size/2, size/2)`:
`max(abs(x - size/2), abs(y - size/2))`.  For the even reference size the
Python float `size / 2` is the exact integer `size / 2`. -/
def chebDist (size x y : ℕ) : ℕ :=
  max ((x : ℤ) - (size / 2 : ℕ)).natAbs ((y : ℤ) - (size / 2 : ℕ)).natAbs

/-- The mask value `int(255 * (dist / max_dist))` of `make_rect_gradient`,
as exact integer arithmetic (`Nat` division is the floor; `int()` truncates
a nonnegative float).  For `size = 200` this agrees with the Python float
computation at every pixel. -/
def maskAlpha (size x y : ℕ) : ℕ :=
  255 * chebDist size x y / (size / 2)

/-- The "L" mask built pixel-by-pixel by the loop in `make_rect_gradient`. -/
def gradientMask (size : ℕ) : GrayImg :=
  ⟨size, size, fun x y => maskAlpha size x y⟩

/-- Translation of `make_rect_gradient(color, size)`: black base, solid-color overlay,
pasted through the Chebyshev-distance mask. -/
def make_rect_gradient (color : RGB) (size : ℕ) : Img :=
  (Img.new size size (0, 0, 0)).pasteMask (Img.new size size color)
    (gradientMask size) 0 0

/-- The gradient pool `self.gradients` precomputed in `__init__`
(line 70), one entry per named background color, keyed in dict order. -/
def gradientPool : List (String × Img) :=
  BACKGROUND_COLORS.map (fun p => (p.1, make_rect_gradient p.2 TILE_SIZE))

/-! ### Image loading (src/main.py lines 54-67) -/

/-- Python `str.lower()` as a per-character map (the ASCII case, which is
what the suffix test compares against). -/
def strToLower (s : String) : String := ⟨s.data.map Char.toLower⟩

/-- Python `str.endswith(suffix)`: a pure suffix test on the character
sequence. -/
def strEndsWith (s suffix : String) : Bool := suffix.data.isSuffixOf s.data

/-- The filter predicate of the list comprehension on line 57:
`f.lower().endswith(".webp")`. -/
def isWebpName (f : String) : Bool := strEndsWith (strToLower f) ".webp"

/-- Model of `os.path.join(image_dir, f)` in the normal POSIX case (directory with no
trailing separator, relative file name). -/
def pathJoin (dir f : String) : String := dir ++ "/" ++ f

/-- The list `self.images`: the comprehension
`[os.path.join(image_dir, f) for f in os.listdir(image_dir) if f.lower().endswith(".webp")]`,
over the directory listing `files`. -/
def listImages (dir : String) (files : List String) : List String :=
  (files.filter (fun f => isWebpName f)).map (fun f => pathJoin dir f)

/-! ### The cursor ring `self.positions` (src/main.py lines 72-85) -/

/-- The ring `self.positions`: top row `c = 0..3` at `r = 0`; right side `r = 1..4` at
`c = 3`; bottom row `c = 2, 1, 0` at `r = 4`; left side `r = 3, 2, 1` at
`c = 0` — the outer border cells, clockwise from the top-left cell. -/
def cursorRing : List (ℕ × ℕ) :=
  ((List.range 4).map (fun c => (c, 0))) ++
  ((List.range 4).map (fun r => (3, r + 1))) ++
  ((List.range 3).map (fun i => (2 - i, 4))) ++
  ((List.range 3).map (fun i => (0, 3 - i)))

/-- The hole test of line 121: `1 <= c <= 2 and 1 <= r <= 3`. -/
def holeCell (p : ℕ × ℕ) : Bool :=
  decide (1 ≤ p.1 ∧ p.1 ≤ 2 ∧ 1 ≤ p.2 ∧ p.2 ≤ 3)

/-- Whether a cell lies on the outer edge of the `COLS × ROWS` grid. -/
def onOuterEdge (p : ℕ × ℕ) : Bool :=
  p.1 == 0 || p.1 == COLS - 1 || p.2 == 0 || p.2 == ROWS - 1

/-! ### `PressYourLuckBoard.__init__` (src/main.py lines 49-91) -/

/-- The state assembled by `__init__` once the no-images check has passed.
`canvasCreated` records that the `tk.Canvas` of line 63 was made; it is only
ever reached after the check on lines 59-60. -/
structure BoardState where
  images : List String
  canvasCreated : Bool
  rawImages : List ImgA
  gradients : List (String × Img)
  ring : List (ℕ × ℕ)
  cursorIndex : ℕ

/-- Translation of `__init__` up to the canvas/pool setup: list the matching files, raise
`ValueError("No WEBP images found!")` when there are none (before the canvas
is created), otherwise build the state.  `decode` stands for
`Image.open(path).convert("RGBA")`, which yields a pixel format with
per-pixel transparency (our `ImgA`). -/
def boardInit (dir : String) (files : List String) (decode : String → ImgA) :
    Except String BoardState :=
  let images := listImages dir files
  if images.isEmpty then Except.error "No WEBP images found!"
  else Except.ok ⟨images, true, images.map decode, gradientPool, cursorRing, 0⟩

/-! ### `ImageOps.contain` and `make_tile` (src/main.py lines 93-111) -/

/-- Python's `round`: round half to even (used by `ImageOps.contain`). -/
def roundHalfEven (q : ℚ) : ℤ :=
  if q - ⌊q⌋ < 1 / 2 then ⌊q⌋
  else if q - ⌊q⌋ > 1 / 2 then ⌊q⌋ + 1
  else if 2 ∣ ⌊q⌋ then ⌊q⌋ else ⌊q⌋ + 1

/-- The output size `ImageOps.contain(img, (bw, bh))` picks: keep the box if
the aspect ratios agree, otherwise shrink the box's off-axis side by the
image's aspect ratio (Pillow `src/PIL/ImageOps.py`). -/
def containSize (w h bw bh : ℕ) : ℕ × ℕ :=
  if (w : ℚ) / h = (bw : ℚ) / bh then (bw, bh)
  else if (w : ℚ) / h > (bw : ℚ) / bh then
    (bw, (roundHalfEven ((h : ℚ) / w * bw)).toNat)
  else
    ((roundHalfEven ((w : ℚ) / h * bh)).toNat, bh)

/-- Model of `img.resize((w, h))`.  The repository only depends on the output
dimensions; the resampling kernel is Pillow-internal, so pixel content is
modelled by nearest sampling. -/
def ImgA.resize (img : ImgA) (w h : ℕ) : ImgA :=
  ⟨w, h, fun x y => img.pix (x * img.width / w) (y * img.height / h)⟩

/-- Model of `ImageOps.contain(img, (bw, bh))`. -/
def ImgA.contain (img : ImgA) (bw bh : ℕ) : ImgA :=
  ImgA.resize img (containSize img.width img.height bw bh).1
    (containSize img.width img.height bw bh).2

/-- Model of `random.choice(list(BACKGROUND_COLORS.keys()))`, the draw given as an
index reduced modulo the number of keys. -/
def chooseColor (d : ℕ) : String :=
  (BACKGROUND_COLORS.map Prod.fst).getD (d % BACKGROUND_COLORS.length) ""

/-- Translation of `make_tile` (lines 93-111): copy a randomly chosen gradient, contain a
randomly chosen source image into `(TILE_SIZE - 20, TILE_SIZE - 20)`, paste
it centered using the image itself as the mask, then paste the result at
offset `(BORDER, BORDER)` onto a black `(TILE_SIZE + 2*BORDER)`-square. -/
def make_tile (gradients : List (String × Img)) (raws : List ImgA)
    (d1 d2 : ℕ) : Img :=
  let bg := ((gradients.lookup (chooseColor d1)).getD default).copy
  let img := raws.getD (d2 % raws.length) default
  let resized := img.contain (TILE_SIZE - 20) (TILE_SIZE - 20)
  let x := (TILE_SIZE - resized.width) / 2
  let y := (TILE_SIZE - resized.height) / 2
  let bg2 := bg.pasteAlpha resized x y
  let bordered := Img.new (TILE_SIZE + 2 * BORDER) (TILE_SIZE + 2 * BORDER) (0, 0, 0)
  bordered.paste bg2 BORDER BORDER

/-! ### `draw_board` and `update_board` (src/main.py lines 113-139) -/

/-- The grid cells visited by the two nested loops of `draw_board`
(`r` outer `0..4`, `c` inner `0..3`), in visit order, skipping the hole
`1 <= c <= 2 and 1 <= r <= 3`. -/
def boardCells : List (ℕ × ℕ) :=
  (List.range ROWS).flatMap (fun r =>
    (List.range COLS).filterMap (fun c =>
      if 1 ≤ c ∧ c ≤ 2 ∧ 1 ≤ r ∧ r ≤ 3 then none else some (c, r)))

/-- Translation of `draw_board`: one fresh tile per non-hole cell, inserted into
`self.tile_widgets` keyed by `(c, r)` in loop order.  The canvas id of the
`i`-th created image is modelled as `i`; `make_tile`'s two random draws for
the `i`-th tile come from the stream positions `2i` and `2i + 1`. -/
def draw_board (raws : List ImgA) (rng : ℕ → ℕ) :
    List ((ℕ × ℕ) × (ℕ × Img)) :=
  boardCells.enum.map (fun p =>
    (p.2, (p.1, make_tile gradientPool raws (rng (2 * p.1)) (rng (2 * p.1 + 1)))))

/-- The tile-replacement loop of `update_board` (lines 130-133): for each
existing entry, keep the canvas id and store a fresh tile at the same key. -/
def update_board_tiles (raws : List ImgA) (rng : ℕ → ℕ)
    (widgets : List ((ℕ × ℕ) × (ℕ × Img))) : List ((ℕ × ℕ) × (ℕ × Img)) :=
  widgets.enum.map (fun p =>
    (p.2.1, (p.2.2.1, make_tile gradientPool raws (rng (2 * p.1)) (rng (2 * p.1 + 1)))))

/-! ### `highlight_cursor` (src/main.py lines 141-155) -/

/-- One `highlight_cursor` call as written: overwrite `cursor_index` with a
fresh `randrange` draw, highlight that ring position, then perform the
trailing modulo increment (line 155).  Returns the highlighted position and
the stored index value after the call. -/
def highlight_cursor_step (draw : ℕ) (_ci : ℕ) : (ℕ × ℕ) × ℕ :=
  let i := draw % cursorRing.length
  (cursorRing.getD i (0, 0), (i + 1) % cursorRing.length)

/-- The same call with the dead line 155 increment removed. -/
def highlight_cursor_step_noinc (draw : ℕ) (_ci : ℕ) : (ℕ × ℕ) × ℕ :=
  let i := draw % cursorRing.length
  (cursorRing.getD i (0, 0), i)

/-- The sequence of highlighted positions over a list of per-tick random
draws, threading the stored cursor index through `step`. -/
def highlightTrace (step : ℕ → ℕ → (ℕ × ℕ) × ℕ) :
    List ℕ → ℕ → List (ℕ × ℕ)
  | [], _ => []
  | d :: ds, ci =>
    (step d ci).1 :: highlightTrace step ds (step d ci).2

/-! ### Event traces of one tick (for C8) -/

/-- Draw-call events issued by `update_board` / `highlight_cursor`, in
program order. -/
inductive Ev where
  | replaceTile : (ℕ × ℕ) → Ev
  | deleteCursor : Ev
  | createCursor : (ℕ × ℕ) → Ev
  | schedule : Ev
deriving DecidableEq

/-- Events of one `highlight_cursor` call: `canvas.delete("cursor")` first,
then `canvas.create_rectangle(..., tags="cursor")` at the freshly drawn ring
position. -/
def highlight_cursor_events (draw : ℕ) : List Ev :=
  [Ev.deleteCursor,
   Ev.createCursor (cursorRing.getD (draw % cursorRing.length) (0, 0))]

/-- Events of one `update_board` tick: one `itemconfig` per existing key in
iteration order, then the highlight step, then `root.after(...)`. -/
def update_board_events (keys : List (ℕ × ℕ)) (draw : ℕ) : List Ev :=
  keys.map Ev.replaceTile ++ highlight_cursor_events draw ++ [Ev.schedule]

/-- The event trace of successive ticks: the scheduler is single-threaded
and cooperative, so tick `n + 1`'s events strictly follow tick `n`'s. -/
def ticksEvents (keys : List (ℕ × ℕ)) : List ℕ → List Ev
  | [] => []
  | d :: ds => update_board_events keys d ++ ticksEvents keys ds

/-- How one event changes the number of live highlight rectangles:
`canvas.delete("cursor")` removes every item with that tag,
`create_rectangle` adds one. -/
def cursorCountStep (n : ℕ) (e : Ev) : ℕ :=
  match e with
  | Ev.deleteCursor => 0
  | Ev.createCursor _ => n + 1
  | _ => n

/-- Number of live highlight rectangles after a list of events, starting
from `n`. -/
def cursorCount (es : List Ev) (n : ℕ) : ℕ := es.foldl cursorCountStep n

/-! ### Heap model of the image objects (for C9)

PIL images are mutable objects; `make_tile` mutates only the fresh copy
`bg` (line 96) and the fresh `bordered` (lines 108-109), never a pool
entry.  `Store` is the object heap, references are list indices. -/

abbrev Store := List Img

/-- Allocate a fresh image object, returning the new heap and its reference. -/
def alloc (s : Store) (img : Img) : Store × ℕ := (s ++ [img], s.length)

/-- Heap model of `obj.copy()`: allocate a fresh object with the same pixels. -/
def heapCopy (s : Store) (r : ℕ) : Store × ℕ := alloc s (s.getD r default)

/-- The gradient objects allocated once at startup (line 70), in dict order. -/
def initialStore : Store :=
  BACKGROUND_COLORS.map (fun p => make_rect_gradient p.2 TILE_SIZE)

/-- The dict `self.gradients` as name-to-reference bindings into `initialStore`. -/
def gradientRefs : List (String × ℕ) :=
  (BACKGROUND_COLORS.map Prod.fst).enum.map (fun p => (p.2, p.1))

/-- Translation of `make_tile` against the heap: `bg = self.gradients[color_name].copy()`
allocates; the two pastes mutate only `bg` and the fresh `bordered`.  The
raw source images are only read (`ImageOps.contain` returns a new image and
a paste mask argument is read-only), so they stay outside the heap.
Returns the heap and the reference of the finished tile. -/
def make_tile_heap (s : Store) (grads : List (String × ℕ)) (raws : List ImgA)
    (d1 d2 : ℕ) : Store × ℕ :=
  let bgSrc := (grads.lookup (chooseColor d1)).getD 0
  let s1 := (heapCopy s bgSrc).1
  let bgRef := (heapCopy s bgSrc).2
  let img := raws.getD (d2 % raws.length) default
  let resized := img.contain (TILE_SIZE - 20) (TILE_SIZE - 20)
  let x := (TILE_SIZE - resized.width) / 2
  let y := (TILE_SIZE - resized.height) / 2
  let s2 := s1.set bgRef ((s1.getD bgRef default).pasteAlpha resized x y)
  let bordered := Img.new (TILE_SIZE + 2 * BORDER) (TILE_SIZE + 2 * BORDER) (0, 0, 0)
  let s3 := (alloc s2 bordered).1
  let bRef := (alloc s2 bordered).2
  let s4 := s3.set bRef ((s3.getD bRef default).paste (s3.getD bgRef default) BORDER BORDER)
  (s4, bRef)

/-- One update tick against the heap: `make_tile` once per occupied cell. -/
def tick_heap (s : Store) (raws : List ImgA) (draws : List (ℕ × ℕ)) : Store :=
  draws.foldl (fun st d => (make_tile_heap st gradientRefs raws d.1 d.2).1) s

/-! ### Helper lemmas about the 8-bit blend -/

theorem muldiv255_zero_right (a : ℕ) : muldiv255 a 0 = 0 := by
  unfold muldiv255
  simp only [Nat.shiftRight_eq_div_pow]
  norm_num

theorem muldiv255_zero_left (b : ℕ) : muldiv255 0 b = 0 := by
  unfold muldiv255
  simp only [Nat.shiftRight_eq_div_pow]
  norm_num

theorem muldiv255_255_right (a : ℕ) (ha : a ≤ 255) : muldiv255 a 255 = a := by
  unfold muldiv255
  simp only [Nat.shiftRight_eq_div_pow]
  norm_num
  omega

/-- Mask value 0 keeps the base pixel entirely (for 8-bit channels). -/
theorem blendRGB_zero (a b : RGB) (ha1 : a.1 ≤ 255) (ha2 : a.2.1 ≤ 255)
    (ha3 : a.2.2 ≤ 255) : blendRGB 0 a b = a := by
  unfold blendRGB blendChannel
  simp only [Nat.sub_zero, muldiv255_zero_right, Nat.add_zero,
    muldiv255_255_right _ ha1, muldiv255_255_right _ ha2, muldiv255_255_right _ ha3]

/-- Mask value 255 takes the overlay pixel entirely (for 8-bit channels). -/
theorem blendRGB_255 (a b : RGB) (hb1 : b.1 ≤ 255) (hb2 : b.2.1 ≤ 255)
    (hb3 : b.2.2 ≤ 255) : blendRGB 255 a b = b := by
  unfold blendRGB blendChannel
  simp only [Nat.sub_self, muldiv255_zero_right, Nat.zero_add,
    muldiv255_255_right _ hb1, muldiv255_255_right _ hb2, muldiv255_255_right _ hb3]

theorem chebDist_le_half (size x y : ℕ) (hx : x < size) (hy : y < size) :
    chebDist size x y ≤ size / 2 := by
  unfold chebDist
  omega

/-- The integer mask value of the code equals the floor of `255` times the
spec's blend weight `min(1, chebyshev_distance / (size/2))`. -/
theorem maskAlpha_eq_floor (size x y : ℕ) (hsize : size % 2 = 0)
    (hpos : 0 < size) (hx : x < size) (hy : y < size) :
    maskAlpha size x y =
      ⌊(255 : ℚ) * min 1 ((chebDist size x y : ℚ) / ((size : ℚ) / 2))⌋₊ := by
  have hk : 0 < size / 2 := by omega
  have hcast : ((size / 2 : ℕ) : ℚ) = (size : ℚ) / 2 := by
    rw [eq_div_iff (by norm_num)]
    exact_mod_cast by omega
  have hd : chebDist size x y ≤ size / 2 := chebDist_le_half size x y hx hy
  have h1 : (chebDist size x y : ℚ) / ((size : ℚ) / 2) ≤ 1 := by
    rw [← hcast, div_le_one (by exact_mod_cast hk)]
    exact_mod_cast hd
  rw [min_eq_right h1, ← hcast]
  rw [show (255 : ℚ) * ((chebDist size x y : ℚ) / ((size / 2 : ℕ) : ℚ)) =
      ((255 * chebDist size x y : ℕ) : ℚ) / ((size / 2 : ℕ) : ℚ) by push_cast; ring]
  rw [Nat.floor_div_nat ((255 * chebDist size x y : ℕ) : ℚ) (size / 2),
    Nat.floor_natCast]
  rfl

/-- C1: for every RGB color and even edge length (reference 200), the
gradient is a `size × size` bitmap, the pixel at `(x, y)` blends the black
base toward the target color with 8-bit weight
`⌊255 · min(1, chebyshev_distance / (size/2))⌋` where
`chebyshev_distance = max(|x - size/2|, |y - size/2|)`; the weight is `0` at
the exact center pixel (which is therefore the dark base color), maximal at
the corner `(0, 0)` (fully the target color); and the generator is a pure
function, so two calls with identical color and size produce pixel-identical
bitmaps. -/
theorem C1_gradient_blend (color : RGB) (size x y : ℕ)
    (hsize : size % 2 = 0) (hpos : 0 < size) (hx : x < size) (hy : y < size)
    (hc1 : color.1 ≤ 255) (hc2 : color.2.1 ≤ 255) (hc3 : color.2.2 ≤ 255) :
    (make_rect_gradient color size).width = size ∧
    (make_rect_gradient color size).height = size ∧
    (make_rect_gradient color size).pix x y =
      blendRGB (⌊(255 : ℚ) * min 1 ((chebDist size x y : ℚ) / ((size : ℚ) / 2))⌋₊)
        (0, 0, 0) color ∧
    (make_rect_gradient color size).pix (size / 2) (size / 2) = (0, 0, 0) ∧
    (make_rect_gradient color size).pix 0 0 = (color.1, color.2.1, color.2.2) ∧
    make_rect_gradient color size = make_rect_gradient color size := by
  have hpix : ∀ a b : ℕ, a < size → b < size →
      (make_rect_gradient color size).pix a b =
        blendRGB (maskAlpha size a b) (0, 0, 0) color := by
    intro a b hb ha
    unfold make_rect_gradient Img.pasteMask gradientMask Img.new
    simp only
    rw [if_pos (by simp; omega)]
    simp
  refine ⟨rfl, rfl, ?_, ?_, ?_, rfl⟩
  · rw [hpix x y hx hy, maskAlpha_eq_floor size x y hsize hpos hx hy]
  · have hh : size / 2 < size := by omega
    rw [hpix _ _ hh hh]
    have hzero : maskAlpha size (size / 2) (size / 2) = 0 := by
      unfold maskAlpha chebDist
      simp
    rw [hzero, blendRGB_zero (0, 0, 0) color (by norm_num) (by norm_num) (by norm_num)]
  · rw [hpix 0 0 hpos hpos]
    have hfull : maskAlpha size 0 0 = 255 := by
      unfold maskAlpha chebDist
      have hk : 0 < size / 2 := by omega
      have : ((0 : ℤ) - (size / 2 : ℕ)).natAbs = size / 2 := by omega
      rw [show ((0 : ℕ) : ℤ) = (0 : ℤ) from rfl, this, max_self]
      exact Nat.mul_div_cancel 255 hk
    rw [hfull, blendRGB_255 (0, 0, 0) color hc1 hc2 hc3]

/-! ### Loader lemmas and C2 / C10 -/

theorem listImages_length (dir : String) (files : List String) :
    (listImages dir files).length = files.countP (fun f => isWebpName f) := by
  unfold listImages
  rw [List.length_map, ← List.countP_eq_length_filter]

/-- C2: the loader keeps exactly the files whose lowercased name ends in
`".webp"` (so the result set size is the count of matching files), decodes
each of them to an RGBA bitmap, and `__init__` raises the no-images
`ValueError` if and only if the directory holds zero matching files —
short-circuiting before the canvas is created (the `Except.ok` state is the
only place `canvasCreated` is set). -/
theorem C2_loader (dir : String) (files : List String) (decode : String → ImgA) :
    (boardInit dir files decode = Except.error "No WEBP images found!" ↔
      files.countP (fun f => isWebpName f) = 0) ∧
    (files.countP (fun f => isWebpName f) ≠ 0 →
      ∃ st, boardInit dir files decode = Except.ok st ∧
        st.images.length = files.countP (fun f => isWebpName f) ∧
        st.rawImages.length = files.countP (fun f => isWebpName f) ∧
        st.canvasCreated = true) := by
  have hlen := listImages_length dir files
  have hempty : (listImages dir files).isEmpty = true ↔
      files.countP (fun f => isWebpName f) = 0 := by
    rw [List.isEmpty_iff_length_eq_zero, hlen]
  by_cases hn : files.countP (fun f => isWebpName f) = 0
  · have he : (listImages dir files).isEmpty = true := hempty.mpr hn
    refine ⟨?_, fun hc => absurd hn hc⟩
    unfold boardInit
    rw [if_pos he]
    simp [hn]
  · have he : ¬ (listImages dir files).isEmpty = true := fun h => hn (hempty.mp h)
    constructor
    · unfold boardInit
      rw [if_neg he]
      simp [hn]
    · intro _
      refine ⟨⟨listImages dir files, true, (listImages dir files).map (fun f => decode f),
        gradientPool, cursorRing, 0⟩, ?_, hlen, ?_, rfl⟩
      · unfold boardInit
        rw [if_neg he]
      · simpa [List.length_map] using hlen

/-- Witness for C2: with directory listing
`["a.webp", "b.PNG", "C.WEBP"]` there are two matching files, and
`__init__` succeeds with two loaded paths and two decoded RGBA images. -/
theorem C2_loader_witness :
    ["a.webp", "b.PNG", "C.WEBP"].countP (fun f => isWebpName f) ≠ 0 ∧
    (∃ st, boardInit "tiles" ["a.webp", "b.PNG", "C.WEBP"] (fun _ => default) =
        Except.ok st ∧
      st.images.length = ["a.webp", "b.PNG", "C.WEBP"].countP (fun f => isWebpName f) ∧
      st.rawImages.length = ["a.webp", "b.PNG", "C.WEBP"].countP (fun f => isWebpName f) ∧
      st.canvasCreated = true) :=
  ⟨by decide,
   (C2_loader "tiles" ["a.webp", "b.PNG", "C.WEBP"] (fun _ => default)).2 (by decide)⟩

/-- C10: a directory entry is loaded iff its lowercased name ends with the
literal suffix `".webp"`; other extensions (`.png`, `.jpg`) are ignored
regardless of content (the test is purely a name-suffix check), a file named
exactly `".webp"` is matched, and the comparison is case-insensitive. -/
theorem C10_webp_filter (dir : String) (files : List String) (f : String) :
    listImages dir files =
      (files.filter (fun g => strEndsWith (strToLower g) ".webp")).map
        (fun g => pathJoin dir g) ∧
    (f ∈ files.filter (fun g => isWebpName g) ↔
      f ∈ files ∧ strEndsWith (strToLower f) ".webp" = true) ∧
    isWebpName ".webp" = true ∧
    isWebpName "picture.png" = false ∧
    isWebpName "picture.jpg" = false ∧
    isWebpName "PICTURE.WEBP" = true ∧
    isWebpName "picturewebp" = false := by
  refine ⟨rfl, ?_, by decide, by decide, by decide, by decide, by decide⟩
  simp [List.mem_filter, isWebpName]

/-! ### C6: the cursor ring -/

set_option maxHeartbeats 1000000 in
/-- C6: `self.positions` has exactly `2·ROWS + 2·COLS − 4 = 14` entries,
they are pairwise distinct, each lies inside the grid on its outer edge and
outside the hole, and the sequence is exactly the clockwise border walk
starting at the top-left cell `(0, 0)`. -/
theorem C6_cursor_ring :
    cursorRing.length = 2 * ROWS + 2 * COLS - 4 ∧
    cursorRing.length = 14 ∧
    cursorRing.Nodup ∧
    cursorRing.all (fun p =>
      onOuterEdge p && !holeCell p && decide (p.1 < COLS) && decide (p.2 < ROWS)) = true ∧
    cursorRing = [(0, 0), (1, 0), (2, 0), (3, 0),
                  (3, 1), (3, 2), (3, 3), (3, 4),
                  (2, 4), (1, 4), (0, 4),
                  (0, 3), (0, 2), (0, 1)] :=
  ⟨by decide, by decide, by decide, by decide, by decide⟩

/-! ### C7: the trailing cursor-index increment is dead code -/

/-- C7: each tick's highlighted position depends only on that tick's fresh
`randrange` draw; the stored index (and hence the trailing modulo increment
of line 155) is overwritten before it is ever read, so the program with the
increment removed produces the identical sequence of highlighted positions
for every random draw sequence and any pair of starting index values. -/
theorem C7_increment_dead (draws : List ℕ) (ci ci' : ℕ) :
    highlightTrace highlight_cursor_step draws ci =
      highlightTrace highlight_cursor_step_noinc draws ci' := by
  induction draws generalizing ci ci' with
  | nil => rfl
  | cons d ds ih =>
    simp only [highlightTrace, highlight_cursor_step, highlight_cursor_step_noinc]
    exact congrArg _ (ih _ _)

/-! ### C8: ordering of draw calls within and across ticks -/

theorem cursorCount_replaceTiles (keys : List (ℕ × ℕ)) (n : ℕ) :
    cursorCount (keys.map Ev.replaceTile) n = n := by
  induction keys generalizing n with
  | nil => rfl
  | cons k ks ih => simpa [cursorCount, cursorCountStep] using ih n

/-- C8: within a tick every tile replacement is issued before the highlight
step; the highlight deletes the previous rectangle before creating the new
one; after a completed tick exactly one highlight rectangle exists whatever
existed before; and the trace of successive ticks is the strict
concatenation of per-tick traces, the reschedule event coming last in each
tick. -/
theorem C8_tick_order (keys : List (ℕ × ℕ)) (draw : ℕ) (draws : List ℕ) (n : ℕ) :
    update_board_events keys draw =
      keys.map Ev.replaceTile ++
        [Ev.deleteCursor,
         Ev.createCursor (cursorRing.getD (draw % cursorRing.length) (0, 0)),
         Ev.schedule] ∧
    cursorCount (update_board_events keys draw) n = 1 ∧
    ticksEvents keys (draw :: draws) =
      update_board_events keys draw ++ ticksEvents keys draws := by
  refine ⟨by simp [update_board_events, highlight_cursor_events], ?_, rfl⟩
  unfold update_board_events cursorCount
  rw [List.foldl_append, List.foldl_append]
  rw [show List.foldl cursorCountStep n (keys.map Ev.replaceTile) =
    cursorCount (keys.map Ev.replaceTile) n from rfl, cursorCount_replaceTiles]
  rfl

/-! ### C3: the occupied cells and their preservation across ticks -/

set_option maxHeartbeats 1000000 in
/-- C3: the initial `draw_board` creates one tile at exactly the
`5·4 − 6 = 14` grid cells outside the hole (the keys of `tile_widgets`, in
loop order, are exactly `boardCells`, whose members are exactly the
non-hole in-grid cells), and `update_board`'s replacement loop maps the
widget map to a map with identical keys — it never adds or removes
entries. -/
theorem C3_board_cells (raws : List ImgA) (rng rng2 : ℕ → ℕ) (c r : ℕ) :
    (draw_board raws rng).map Prod.fst = boardCells ∧
    boardCells.length = ROWS * COLS - 6 ∧
    boardCells.length = 14 ∧
    ((c, r) ∈ boardCells ↔
      c < COLS ∧ r < ROWS ∧ ¬(1 ≤ c ∧ c ≤ 2 ∧ 1 ≤ r ∧ r ≤ 3)) ∧
    (∀ widgets : List ((ℕ × ℕ) × (ℕ × Img)),
      (update_board_tiles raws rng2 widgets).map Prod.fst = widgets.map Prod.fst) := by
  refine ⟨?_, by decide, by decide, ?_, ?_⟩
  · unfold draw_board
    rw [List.map_map]
    have h : (Prod.fst ∘ fun p : ℕ × (ℕ × ℕ) =>
        (p.2, (p.1, make_tile gradientPool raws (rng (2 * p.1)) (rng (2 * p.1 + 1))))) =
        Prod.snd := rfl
    rw [h, List.enum_map_snd]
  · have hb : boardCells = [(0, 0), (1, 0), (2, 0), (3, 0), (0, 1), (3, 1),
        (0, 2), (3, 2), (0, 3), (3, 3), (0, 4), (1, 4), (2, 4), (3, 4)] := by rfl
    rw [hb]
    simp only [List.mem_cons, List.not_mem_nil, or_false, Prod.mk.injEq, COLS, ROWS]
    omega
  · intro widgets
    unfold update_board_tiles
    rw [List.map_map]
    have h : (Prod.fst ∘ fun p : ℕ × ((ℕ × ℕ) × (ℕ × Img)) =>
        (p.2.1, (p.2.2.1, make_tile gradientPool raws (rng2 (2 * p.1)) (rng2 (2 * p.1 + 1))))) =
        (Prod.fst ∘ Prod.snd) := rfl
    rw [h, ← List.map_map, List.enum_map_snd]

/-! ### C4: tile dimensions and the black frame -/

theorem make_tile_bg_dims (d : ℕ) :
    ((gradientPool.lookup (chooseColor d)).getD default).width = TILE_SIZE ∧
    ((gradientPool.lookup (chooseColor d)).getD default).height = TILE_SIZE := by
  have hlen : BACKGROUND_COLORS.length = 4 := rfl
  have h4 : d % BACKGROUND_COLORS.length = 0 ∨ d % BACKGROUND_COLORS.length = 1 ∨
      d % BACKGROUND_COLORS.length = 2 ∨ d % BACKGROUND_COLORS.length = 3 := by
    rw [hlen]; omega
  rcases h4 with h | h | h | h <;>
    · simp only [chooseColor, h]
      exact ⟨rfl, rfl⟩

/-- C4: whatever source image pool and random draws are used, `make_tile`'s
output is exactly `(TILE_SIZE + 2·BORDER) = 204` pixels square, and every
pixel in the width-`BORDER` band around the edge is black (the composited
content is pasted at offset `(BORDER, BORDER)` onto a black square and the
gradient copy underneath it is exactly `TILE_SIZE` wide and high). -/
theorem C4_tile_size (raws : List ImgA) (d1 d2 x y : ℕ)
    (hframe : x < BORDER ∨ BORDER + TILE_SIZE ≤ x ∨
      y < BORDER ∨ BORDER + TILE_SIZE ≤ y) :
    (make_tile gradientPool raws d1 d2).width = TILE_SIZE + 2 * BORDER ∧
    (make_tile gradientPool raws d1 d2).height = TILE_SIZE + 2 * BORDER ∧
    TILE_SIZE + 2 * BORDER = 204 ∧
    (make_tile gradientPool raws d1 d2).pix x y = (0, 0, 0) := by
  obtain ⟨hw, hh⟩ := make_tile_bg_dims d1
  refine ⟨rfl, rfl, rfl, ?_⟩
  unfold make_tile Img.paste
  simp only [Img.pasteAlpha, Img.copy, Img.new]
  rw [if_neg]
  simp only [TILE_SIZE, BORDER] at hframe hw hh ⊢
  omega

/-- Witness for C4: with an empty source pool and draws `0, 0`, the four
corner-adjacent frame pixels are black and the bitmap is 204 × 204. -/
theorem C4_tile_size_witness :
    ((0 : ℕ) < BORDER ∨ BORDER + TILE_SIZE ≤ 0 ∨
      (0 : ℕ) < BORDER ∨ BORDER + TILE_SIZE ≤ 0) ∧
    ((make_tile gradientPool [] 0 0).width = TILE_SIZE + 2 * BORDER ∧
     (make_tile gradientPool [] 0 0).height = TILE_SIZE + 2 * BORDER ∧
     TILE_SIZE + 2 * BORDER = 204 ∧
     (make_tile gradientPool [] 0 0).pix 0 0 = (0, 0, 0)) :=
  ⟨Or.inl (by decide), C4_tile_size [] 0 0 0 0 (Or.inl (by decide))⟩

/-! ### C5: fitting the source image into the tile -/

theorem roundHalfEven_abs (q : ℚ) : |(roundHalfEven q : ℚ) - q| ≤ 1 / 2 := by
  have h0 : (⌊q⌋ : ℚ) ≤ q := Int.floor_le q
  have h1 : q < ⌊q⌋ + 1 := Int.lt_floor_add_one q
  unfold roundHalfEven
  split_ifs with ha hb hc
  · rw [abs_le]; constructor <;> linarith
  · push_cast; rw [abs_le]; constructor <;> linarith
  · rw [abs_le]; constructor <;> linarith
  · push_cast; rw [abs_le]; constructor <;> linarith

theorem roundHalfEven_nonneg (q : ℚ) (h : 0 ≤ q) : 0 ≤ roundHalfEven q := by
  have h0 : 0 ≤ ⌊q⌋ := Int.floor_nonneg.mpr h
  unfold roundHalfEven
  split_ifs <;> omega

/-- For `a < b`, the scaled-and-rounded side `round(a/b · bw)` is
nonnegative, fits in the box, and is proportional to `a/b` up to the
rounding error: `2·|bw·a − round·b| ≤ b`. -/
theorem containRoundBound (a b bw : ℕ) (ha : 0 < a) (hb : 0 < b) (hbw : 0 < bw)
    (hab : a < b) :
    0 ≤ roundHalfEven ((a : ℚ) / b * bw) ∧
    roundHalfEven ((a : ℚ) / b * bw) ≤ (bw : ℤ) ∧
    2 * ((bw : ℤ) * a - roundHalfEven ((a : ℚ) / b * bw) * b).natAbs ≤ b := by
  have hbQ : (0 : ℚ) < b := by exact_mod_cast hb
  have hbwQ : (0 : ℚ) < bw := by exact_mod_cast hbw
  set q : ℚ := (a : ℚ) / b * bw with hq
  have hq0 : 0 ≤ q := by positivity
  have hqlt : q < bw := by
    have hd : (a : ℚ) / b < 1 := (div_lt_one hbQ).mpr (by exact_mod_cast hab)
    calc q = (a : ℚ) / b * bw := hq
    _ < 1 * bw := mul_lt_mul_of_pos_right hd hbwQ
    _ = bw := one_mul _
  have hr := roundHalfEven_abs q
  have hr0 : 0 ≤ roundHalfEven q := roundHalfEven_nonneg q hq0
  have hrle : roundHalfEven q ≤ (bw : ℤ) := by
    have h2 : (roundHalfEven q : ℚ) < (bw : ℚ) + 1 := by
      have := abs_le.mp hr
      linarith
    have h3 : (roundHalfEven q : ℚ) < ((bw : ℤ) : ℚ) + 1 := by push_cast; exact h2
    exact Int.lt_add_one_iff.mp (by exact_mod_cast h3)
  refine ⟨hr0, hrle, ?_⟩
  have hqw : (bw : ℚ) * a = q * b := by
    rw [hq]; field_simp; ring
  set X : ℤ := (bw : ℤ) * a - roundHalfEven q * b with hX
  have hXQ : (X : ℚ) = (q - roundHalfEven q) * b := by
    rw [hX]; push_cast; rw [hqw]; ring
  have habs : |(X : ℚ)| ≤ 1 / 2 * b := by
    rw [hXQ, abs_mul, abs_of_pos hbQ]
    have hr2 : |q - (roundHalfEven q : ℚ)| ≤ 1 / 2 := by rwa [abs_sub_comm] at hr
    exact mul_le_mul_of_nonneg_right hr2 (le_of_lt hbQ)
  have hfin : ((2 * X.natAbs : ℕ) : ℚ) ≤ (b : ℚ) := by
    push_cast [Int.cast_natAbs]
    linarith
  exact_mod_cast hfin

/-- Fitting into a square box with `ImageOps.contain`: both output sides fit in the box
and the aspect ratio is preserved up to the rounding of one side. -/
theorem containSize_square (w h bw : ℕ) (hw : 0 < w) (hh : 0 < h) (hbw : 0 < bw) :
    (containSize w h bw bw).1 ≤ bw ∧
    (containSize w h bw bw).2 ≤ bw ∧
    2 * (((containSize w h bw bw).1 : ℤ) * h -
      ((containSize w h bw bw).2 : ℤ) * w).natAbs ≤ max w h := by
  have hhQ : (0 : ℚ) < h := by exact_mod_cast hh
  unfold containSize
  have hdest : (bw : ℚ) / bw = 1 := div_self (ne_of_gt (by exact_mod_cast hbw))
  rw [hdest]
  split_ifs with h1 h2
  · have hwh : w = h := by
      have h3 : (w : ℚ) = h := (div_eq_one_iff_eq (ne_of_gt hhQ)).mp h1
      exact_mod_cast h3
    subst hwh
    exact ⟨le_refl _, le_refl _, by simp⟩
  · have hwh : h < w := by
      have h3 := (one_lt_div hhQ).mp h2
      exact_mod_cast h3
    obtain ⟨hr0, hrle, hbound⟩ := containRoundBound h w bw hh hw hbw hwh
    refine ⟨le_refl _, Int.toNat_le.mpr hrle, ?_⟩
    show 2 * ((bw : ℤ) * h -
      ((roundHalfEven ((h : ℚ) / w * bw)).toNat : ℤ) * w).natAbs ≤ max w h
    rw [Int.toNat_of_nonneg hr0]
    exact le_trans hbound (le_max_left w h)
  · have hlt : (w : ℚ) / h < 1 := lt_of_le_of_ne (not_lt.mp h2) h1
    have hwh : w < h := by
      have h3 := (div_lt_one hhQ).mp hlt
      exact_mod_cast h3
    obtain ⟨hr0, hrle, hbound⟩ := containRoundBound w h bw hw hh hbw hwh
    refine ⟨Int.toNat_le.mpr hrle, le_refl _, ?_⟩
    show 2 * ((((roundHalfEven ((w : ℚ) / h * bw)).toNat : ℤ)) * h -
      (bw : ℤ) * w).natAbs ≤ max w h
    rw [Int.toNat_of_nonneg hr0]
    rw [show ((roundHalfEven ((w : ℚ) / h * bw)) * h - (bw : ℤ) * w) =
      -((bw : ℤ) * w - roundHalfEven ((w : ℚ) / h * bw) * h) by ring, Int.natAbs_neg]
    exact le_trans hbound (le_max_right w h)

/-- C5: for every source image with positive dimensions, the contained
image fits within `(TILE_SIZE − 20)` on both axes; its aspect ratio matches
the source's up to the half-pixel rounding of one side (no cropping or
stretching); the centering offsets `x = (TILE_SIZE − width) // 2` and
`y = (TILE_SIZE − height) // 2` split the leftover space evenly on opposing
sides (±1 pixel for odd remainders); and inside the pasted region the
composite blends with the contained image's own alpha channel as the paste
mask. -/
theorem C5_contain_fit (img : ImgA) (hw : 0 < img.width) (hh : 0 < img.height) :
    (img.contain (TILE_SIZE - 20) (TILE_SIZE - 20)).width ≤ TILE_SIZE - 20 ∧
    (img.contain (TILE_SIZE - 20) (TILE_SIZE - 20)).height ≤ TILE_SIZE - 20 ∧
    2 * (((img.contain (TILE_SIZE - 20) (TILE_SIZE - 20)).width : ℤ) * img.height -
      ((img.contain (TILE_SIZE - 20) (TILE_SIZE - 20)).height : ℤ) * img.width).natAbs
      ≤ max img.width img.height ∧
    (TILE_SIZE - (img.contain (TILE_SIZE - 20) (TILE_SIZE - 20)).width -
        (TILE_SIZE - (img.contain (TILE_SIZE - 20) (TILE_SIZE - 20)).width) / 2 =
      (TILE_SIZE - (img.contain (TILE_SIZE - 20) (TILE_SIZE - 20)).width) / 2 ∨
     TILE_SIZE - (img.contain (TILE_SIZE - 20) (TILE_SIZE - 20)).width -
        (TILE_SIZE - (img.contain (TILE_SIZE - 20) (TILE_SIZE - 20)).width) / 2 =
      (TILE_SIZE - (img.contain (TILE_SIZE - 20) (TILE_SIZE - 20)).width) / 2 + 1) ∧
    (TILE_SIZE - (img.contain (TILE_SIZE - 20) (TILE_SIZE - 20)).height -
        (TILE_SIZE - (img.contain (TILE_SIZE - 20) (TILE_SIZE - 20)).height) / 2 =
      (TILE_SIZE - (img.contain (TILE_SIZE - 20) (TILE_SIZE - 20)).height) / 2 ∨
     TILE_SIZE - (img.contain (TILE_SIZE - 20) (TILE_SIZE - 20)).height -
        (TILE_SIZE - (img.contain (TILE_SIZE - 20) (TILE_SIZE - 20)).height) / 2 =
      (TILE_SIZE - (img.contain (TILE_SIZE - 20) (TILE_SIZE - 20)).height) / 2 + 1) ∧
    (∀ (base : Img) (ox oy px py : ℕ),
      ox ≤ px → px < ox + (img.contain (TILE_SIZE - 20) (TILE_SIZE - 20)).width →
      oy ≤ py → py < oy + (img.contain (TILE_SIZE - 20) (TILE_SIZE - 20)).height →
      (base.pasteAlpha (img.contain (TILE_SIZE - 20) (TILE_SIZE - 20)) ox oy).pix px py =
        blendRGB
          ((img.contain (TILE_SIZE - 20) (TILE_SIZE - 20)).pix (px - ox) (py - oy)).2.2.2
          (base.pix px py)
          (((img.contain (TILE_SIZE - 20) (TILE_SIZE - 20)).pix (px - ox) (py - oy)).1,
           ((img.contain (TILE_SIZE - 20) (TILE_SIZE - 20)).pix (px - ox) (py - oy)).2.1,
           ((img.contain (TILE_SIZE - 20) (TILE_SIZE - 20)).pix (px - ox) (py - oy)).2.2.1)) := by
  obtain ⟨b1, b2, b3⟩ :=
    containSize_square img.width img.height (TILE_SIZE - 20) hw hh (by decide)
  refine ⟨b1, b2, b3, ?_, ?_, ?_⟩
  · have hb : (img.contain (TILE_SIZE - 20) (TILE_SIZE - 20)).width ≤ TILE_SIZE - 20 := b1
    simp only [TILE_SIZE] at hb ⊢
    omega
  · have hb : (img.contain (TILE_SIZE - 20) (TILE_SIZE - 20)).height ≤ TILE_SIZE - 20 := b2
    simp only [TILE_SIZE] at hb ⊢
    omega
  · intro base ox oy px py hpx1 hpx2 hpy1 hpy2
    unfold Img.pasteAlpha
    simp only
    rw [if_pos ⟨hpx1, hpx2, hpy1, hpy2⟩]

/-- Witness for C5 with a 100 × 50 source image: both contained sides fit
within `TILE_SIZE − 20 = 180`. -/
theorem C5_contain_fit_witness :
    (0 : ℕ) < (ImgA.mk 100 50 (fun _ _ => (1, 2, 3, 4))).width ∧
    (0 : ℕ) < (ImgA.mk 100 50 (fun _ _ => (1, 2, 3, 4))).height ∧
    ((ImgA.mk 100 50 (fun _ _ => (1, 2, 3, 4))).contain
      (TILE_SIZE - 20) (TILE_SIZE - 20)).width ≤ TILE_SIZE - 20 ∧
    ((ImgA.mk 100 50 (fun _ _ => (1, 2, 3, 4))).contain
      (TILE_SIZE - 20) (TILE_SIZE - 20)).height ≤ TILE_SIZE - 20 :=
  ⟨by decide, by decide,
   (C5_contain_fit (ImgA.mk 100 50 (fun _ _ => (1, 2, 3, 4))) (by decide) (by decide)).1,
   (C5_contain_fit (ImgA.mk 100 50 (fun _ _ => (1, 2, 3, 4))) (by decide) (by decide)).2.1⟩

/-! ### C9: the gradient pool is built once and never mutated -/

theorem store_getD_append (s : Store) (img : Img) (r : ℕ) (hr : r < s.length) :
    (s ++ [img]).getD r default = s.getD r default := by
  unfold List.getD
  rw [List.get?_eq_getElem?, List.get?_eq_getElem?, List.getElem?_append_left hr]

theorem store_getD_set_ne (s : Store) (i : ℕ) (img : Img) (r : ℕ) (h : i ≠ r) :
    (s.set i img).getD r default = s.getD r default := by
  unfold List.getD
  rw [List.get?_eq_getElem?, List.get?_eq_getElem?, List.getElem?_set_ne h]

/-- One `make_tile` call only mutates the two objects it freshly allocates
(the gradient copy and the bordered square): every pre-existing heap object
is untouched, and the heap only grows. -/
theorem make_tile_heap_preserves (s : Store) (grads : List (String × ℕ))
    (raws : List ImgA) (d1 d2 r : ℕ) (hr : r < s.length) :
    (make_tile_heap s grads raws d1 d2).1.getD r default = s.getD r default ∧
    s.length ≤ (make_tile_heap s grads raws d1 d2).1.length := by
  unfold make_tile_heap heapCopy alloc
  simp only
  constructor
  · rw [store_getD_set_ne _ _ _ _ (by simp; omega)]
    rw [store_getD_append _ _ _ (by simp; omega)]
    rw [store_getD_set_ne _ _ _ _ (by omega)]
    rw [store_getD_append _ _ _ hr]
  · simp only [List.length_set, List.length_append, List.length_singleton]
    omega

theorem tick_heap_preserves (s : Store) (raws : List ImgA)
    (draws : List (ℕ × ℕ)) (r : ℕ) (hr : r < s.length) :
    (tick_heap s raws draws).getD r default = s.getD r default ∧
    s.length ≤ (tick_heap s raws draws).length := by
  induction draws generalizing s with
  | nil => exact ⟨rfl, le_refl _⟩
  | cons d ds ih =>
    obtain ⟨h1, h2⟩ := make_tile_heap_preserves s gradientRefs raws d.1 d.2 r hr
    obtain ⟨h3, h4⟩ :=
      ih ((make_tile_heap s gradientRefs raws d.1 d.2).1) (lt_of_lt_of_le hr h2)
    exact ⟨h3.trans h1, le_trans h2 h4⟩

/-- C9: the gradient pool is created exactly once at startup with exactly
four entries (one per named background color), and no tick mutates it:
`make_tile` copies the chosen gradient before pasting, so across any
sequence of tile compositions every pre-existing image object — in
particular every cached gradient — is unchanged.  (The raw source images
are only ever read: `ImageOps.contain` returns a new image and a paste mask
argument is read-only.) -/
theorem C9_pools_immutable (s : Store) (raws : List ImgA)
    (draws : List (ℕ × ℕ)) (r : ℕ) (hr : r < s.length) :
    BACKGROUND_COLORS.length = 4 ∧
    gradientPool.length = 4 ∧
    initialStore.length = 4 ∧
    (tick_heap s raws draws).getD r default = s.getD r default :=
  ⟨rfl, rfl, rfl, (tick_heap_preserves s raws draws r hr).1⟩

/-- Witness for C9: running a two-tile tick on the startup heap leaves the
first cached gradient object unchanged. -/
theorem C9_pools_immutable_witness :
    (0 : ℕ) < initialStore.length ∧
    (tick_heap initialStore [] [(0, 0), (1, 5)]).getD 0 default =
      initialStore.getD 0 default :=
  ⟨by decide,
   (C9_pools_immutable initialStore [] [(0, 0), (1, 5)] 0 (by decide)).2.2.2⟩

/-- Witness for C1 at the reference size 200 and the color "orange"
`(255, 165, 0)`: the hypotheses hold and, in particular, the center pixel
`(100, 100)` is black and the corner pixel `(0, 0)` is the target color. -/
theorem C1_gradient_blend_witness :
    200 % 2 = 0 ∧ (0 : ℕ) < 200 ∧ (5 : ℕ) < 200 ∧ (7 : ℕ) < 200 ∧
    ((make_rect_gradient (255, 165, 0) 200).pix (200 / 2) (200 / 2) = (0, 0, 0) ∧
     (make_rect_gradient (255, 165, 0) 200).pix 0 0 = (255, 165, 0)) :=
  ⟨by decide, by decide, by decide, by decide,
   (C1_gradient_blend (255, 165, 0) 200 5 7 (by decide) (by decide) (by decide)
      (by decide) (by decide) (by decide) (by decide)).2.2.2.1,
   (C1_gradient_blend (255, 165, 0) 200 5 7 (by decide) (by decide) (by decide)
      (by decide) (by decide) (by decide) (by decide)).2.2.2.2.1⟩

end PressYourLuck
